import Mathlib

/-!
Verification of the crab build-verification pipeline (`src/handlers.py`)
against its natural-language specification.  The Python source is shallowly
embedded: file-system effects (existence checks, file contents), container
command execution and HTML/XML parsing results are passed as explicit
parameters; Python strings are modelled as `String`/`List Char`; exceptions
are modelled by `Except`/`Option` error values.
-/

namespace Crab

/-! ### Generic character/string utilities -/

/-- ASCII whitespace, the characters matched by the regex class `\s`
on the build-tool output handled here. -/
def isSpaceChar (c : Char) : Bool :=
  c = ' ' || c = '\t' || c = '\n' || c = '\r' || c = '\x0b' || c = '\x0c'

/-- Python `str.split(sep)` for a one-character separator. -/
def splitOnChar (sep : Char) : List Char → List (List Char)
  | [] => [[]]
  | c :: cs =>
    if c = sep then [] :: splitOnChar sep cs
    else
      match splitOnChar sep cs with
      | [] => [[c]]
      | l :: ls => (c :: l) :: ls

/-- Python `sep.join(lines)` for a one-character separator. -/
def joinWithChar (sep : Char) : List (List Char) → List Char
  | [] => []
  | [l] => l
  | l :: ls => l ++ sep :: joinWithChar sep ls

/-- Python substring test `pat in hay`. -/
def containsSub (pat : List Char) : List Char → Bool
  | [] => pat.isEmpty
  | c :: cs => pat.isPrefixOf (c :: cs) || containsSub pat cs

/-- Python `str.replace(pat, rep)`: replace all non-overlapping occurrences,
scanning left to right (`pat` is never empty at the call sites embedded here). -/
def replaceAll (pat rep : List Char) : List Char → List Char
  | [] => []
  | c :: cs =>
    if pat ≠ [] ∧ pat.isPrefixOf (c :: cs) then
      rep ++ replaceAll pat rep (List.drop (pat.length - 1) cs)
    else
      c :: replaceAll pat rep cs
termination_by l => l.length
decreasing_by
  all_goals simp_all
  omega

/-- Python `os.path.basename`. -/
def pathBase (p : List Char) : List Char :=
  (splitOnChar '/' p).getLastD []

/-- Python `str.endswith(suffix)`. -/
def hasSuffixStr (suffix p : List Char) : Bool :=
  suffix.isSuffixOf p

/-! ### Error taxonomy (`src/handlers.py` `HandlerException` subclasses and
`src/errors.py` setup errors).  Message payloads are omitted: no claim
depends on them. -/

inductive HandlerErr
  | noTestsFound
  | failedToCompile
  | failedToTest
  | noTestResultsToExtract
  | cantExecJacoco
  | cantInjectJacoco
  | noCoverageReportFound
  | fileNotCovered
  | gradleAggregateReportNotFound
  | notJavaFile
  | noPackageFound
  | fileNotFoundInRepo
deriving DecidableEq

inductive SetupErr
  | notValidDirectory
  | cantFindBuildFile
deriving DecidableEq

/-! ### `BuildHandler.check_for_tests` (`src/handlers.py:42-66`) -/

def testLibraries : List String := ["junit", "testng", "mockito"]

def testKeywords : List String := ["testImplementation", "functionalTests", "bwc_tests_enabled"]

def testDirs : List String := ["src/test/java", "src/test/kotlin", "src/test/groovy", "test"]

/-- The outcome of `check_for_tests`: the final value of
`updates["detected_source_of_tests"]` (if written) and the raised error
(if any).  `content` is the build-file text, `dirExists` models
`os.path.exists` relative to the repository root. -/
structure CheckForTestsResult where
  detected_source_of_tests : Option String
  err : Option HandlerErr
deriving DecidableEq

def check_for_tests (content : String) (dirExists : String → Bool) : CheckForTestsResult :=
  match testLibraries.find? (fun lib => containsSub lib.toList content.toList) with
  | some lib => ⟨some (lib ++ " library in build file"), none⟩
  | none =>
    match testKeywords.find? (fun kw => containsSub kw.toList content.toList) with
    | some kw => ⟨some (kw ++ " keyword in build file"), none⟩
    | none =>
      -- the loop over `test_dirs` overwrites the update for every existing
      -- directory (the last one wins) and then falls through to the raise
      let detected := ((testDirs.filter dirExists).getLast?).map (· ++ " dir exists in repo")
      ⟨detected, some .noTestsFound⟩

/-! ### `BuildHandler.compile_repo` (`src/handlers.py:68-86`) -/

/-- Outcome of `container.exec_run` under the `signal.alarm` wall clock:
either the command finishes with an exit code and output before the alarm
fires, or the alarm interrupts it. -/
inductive ExecOutcome
  | finished (exitCode : Int) (output : List Char)
  | timedOut
deriving DecidableEq

/-- `signal.alarm(limit)` around a command taking `duration` seconds. -/
def runWithAlarm (limit duration : Nat) (exitCode : Int) (output : List Char) : ExecOutcome :=
  if limit < duration then .timedOut else .finished exitCode output

structure CompileUpdates where
  compiled_successfully : Option Bool
  error_msg : Option String
deriving DecidableEq

def compileTimeoutMsg : String := "Compile process killed due to exceeding the 1-hour time limit"

def compile_repo (outcome : ExecOutcome) : CompileUpdates × Option HandlerErr :=
  match outcome with
  | .timedOut => (⟨some false, some compileTimeoutMsg⟩, none)
  | .finished code _ =>
    if code ≠ 0 then (⟨none, none⟩, some .failedToCompile)
    else (⟨none, none⟩, none)

/-- `compile_repo` with the hard-coded `signal.alarm(3600)` budget made
explicit: the compile command takes `duration` seconds and would produce
`exitCode`/`output` if allowed to finish. -/
def compile_repo_timed (duration : Nat) (exitCode : Int) (output : List Char) :
    CompileUpdates × Option HandlerErr :=
  compile_repo (runWithAlarm 3600 duration exitCode output)

/-! ### `GradleHandler.extract_test_numbers` (`src/handlers.py:362-410`) -/

/-- The parts of `build/reports/tests/test/index.html` the extractor reads:
`testsDiv`/`failuresDiv` model `soup.select_one("div.infoBox#tests")` and
`…#failures"`; the inner `Option Int` models the `div.counter` child and
its integer text. -/
structure TestIndexHtml where
  testsDiv : Option (Option Int)
  failuresDiv : Option (Option Int)
deriving DecidableEq

structure TestNumUpdates where
  n_tests : Int
  n_tests_passed : Int
  n_tests_failed : Int
  n_tests_errors : Int
  n_tests_skipped : Int
deriving DecidableEq

def gradle_extract_test_numbers (indexHtmlExists : Bool) (doc : TestIndexHtml) :
    TestNumUpdates × Option HandlerErr :=
  let u0 : TestNumUpdates := ⟨-1, -1, -1, -1, -1⟩
  if ¬ indexHtmlExists then (u0, some .noTestResultsToExtract)
  else
    match doc.testsDiv with
    | none => (u0, some .noTestResultsToExtract)
    | some none => (u0, some .noTestResultsToExtract)
    | some (some t) =>
      let u1 := { u0 with n_tests := t }
      match doc.failuresDiv with
      | none => (u1, some .noTestResultsToExtract)
      | some none => (u1, some .noTestResultsToExtract)
      | some (some f) =>
        ({ u1 with n_tests_failed := f, n_tests_passed := t - f }, none)

/-! ### `get_build_handler` (`src/handlers.py:596-641`) -/

/-- One `os.scandir` entry; `subEntries` holds the directory's own entries
(present in the model so that statements about one-level-deep manifests can
be made; the embedded function never reads it, as the source's depth-1
fallback is commented out). -/
inductive DirEntry
  | mk (name : String) (isFile : Bool) (subEntries : List DirEntry)

def DirEntry.name : DirEntry → String
  | .mk n _ _ => n

def DirEntry.isFile : DirEntry → Bool
  | .mk _ f _ => f

def DirEntry.subEntries : DirEntry → List DirEntry
  | .mk _ _ s => s

inductive BuildKind
  | maven
  | gradle
deriving DecidableEq

def toKeep : List String := ["pom.xml", "build.gradle"]

/-- `get_build_handler`: `isDir` models `os.path.isdir(path)`, `entries`
the `os.scandir(path)` sequence in scan order.  Returns the handler family
and the build-file name it was constructed with. -/
def get_build_handler (isDir : Bool) (entries : List DirEntry) :
    Except SetupErr (BuildKind × String) :=
  if ¬ isDir then .error .notValidDirectory
  else
    match entries.find? (fun e => e.isFile && toKeep.contains e.name) with
    | some e =>
      if e.name = "build.gradle" then .ok (.gradle, e.name)
      else .ok (.maven, e.name)
    | none => .error .cantFindBuildFile

/-! ### `BuildHandler._extract_fully_qualified_class` (`src/handlers.py:162-190`) -/

/-- Result of `javalang.parse.parse`: the first `PackageDeclaration` name
found by `parsed_tree.filter(PackageDeclaration)`, if any. -/
structure JavaParseTree where
  firstPackageName : Option String
deriving DecidableEq

def extract_fully_qualified_class (filepath : String) (fileInRepo : Bool)
    (parseResult : Except Unit JavaParseTree) : Except HandlerErr String :=
  if ¬ hasSuffixStr ".java".toList filepath.toList then .error .notJavaFile
  else if ¬ fileInRepo then .error .fileNotFoundInRepo
  else
    match parseResult with
    | .error _ => .error .notJavaFile
    | .ok tree =>
      match tree.firstPackageName with
      | none => .error .noPackageFound
      | some pkg =>
        let fqc := replaceAll ['.'] ['/'] pkg.toList
        -- `os.path.basename(filepath)[:-5]`, dropping the `.java` suffix
        let base := (pathBase filepath.toList).take ((pathBase filepath.toList).length - 5)
        .ok (String.mk (fqc ++ '/' :: base))

/-! ### JaCoCo injection (`src/handlers.py:111-132` and `290-336`) -/

def jacocoPluginSig : String := "<artifactId>jacoco-maven-plugin</artifactId>"

/-- The `<plugin>` snippet inserted by `MavenHandler._try_to_inject_jacoco`
(whitespace normalised; only its presence/absence matters to the claims). -/
def jacocoPluginSnippet : String :=
  "\n    <plugin>\n        <groupId>org.jacoco</groupId>\n        " ++
  "<artifactId>jacoco-maven-plugin</artifactId>\n        <version>0.8.8</version>\n" ++
  "        <executions>...</executions>\n    </plugin>\n"

/-- `MavenHandler._try_to_inject_jacoco`, as a content transformation:
`.ok c` means the build file now holds `c` (the early-return no-op keeps
the old content), `.error` means `CantInjectJacoco` was raised before any
write. -/
def maven_try_to_inject_jacoco (content : String) : Except HandlerErr String :=
  if containsSub jacocoPluginSig.toList content.toList then .ok content
  else if containsSub "<plugins>".toList content.toList then
    .ok (String.mk (replaceAll "<plugins>".toList
      ("<plugins>\n" ++ jacocoPluginSnippet).toList content.toList))
  else if containsSub "</project>".toList content.toList then
    .ok (String.mk (replaceAll "</project>".toList
      ("\n        <build>\n            <plugins>\n    " ++ jacocoPluginSnippet ++
        "\n            </plugins>\n        </build>\n    \n</project>").toList content.toList))
  else .error .cantInjectJacoco

/-- The errors caught by the `except (CantInjectJacoco, CantExecJacoco)`
clause of `generate_coverage_report`. -/
def isInjectionErr : HandlerErr → Bool
  | .cantInjectJacoco => true
  | .cantExecJacoco => true
  | _ => false

/-- The recursive call `generate_coverage_report(already_injected_manually=True)`:
fails with `CantExecJacoco` when the coverage command still exits non-zero. -/
def generate_coverage_report_injected (exec : Option String → Int) (manifest : Option String) :
    Option HandlerErr × Option String :=
  if exec manifest ≠ 0 then (some .cantExecJacoco, manifest) else (none, manifest)

/-- `BuildHandler.generate_coverage_report` (outer call,
`already_injected_manually=False`).  `exec` gives the exit code of the
coverage-report command as a function of the manifest file state (`none` =
file absent); `inject` is the family's `_try_to_inject_jacoco`.  Returns
the raised error (if any) and the final manifest file state. -/
def generate_coverage_report (exec : Option String → Int)
    (inject : String → Except HandlerErr String) (manifest : Option String) :
    Option HandlerErr × Option String :=
  if exec manifest = 0 then (none, manifest)
  else
    match manifest with
    | none => (some .cantInjectJacoco, none)
    | some og =>
      -- `og_content` is read, then the try block runs inject + retry
      let attempt : Option HandlerErr × Option String :=
        match inject og with
        | .error e => (some e, some og)
        | .ok injected => generate_coverage_report_injected exec (some injected)
      match attempt with
      | (none, st) => (none, st)
      | (some e, st) =>
        -- the except clause rewrites the original content, then re-raises
        if isInjectionErr e then (some e, some og) else (some e, st)

/-! ### Coverage lookup (`src/handlers.py:134-160` and `569-593`) -/

/-- One `<class>` element of a JaCoCo XML report: its `name` and
`sourcefilename` attributes and, if a `counter[@type='LINE']` child is
present, its `missed`/`covered` counts. -/
structure JClass where
  name : String
  sourcefilename : String
  lineCounter : Option (Nat × Nat)
deriving DecidableEq

/-- One located coverage report: its path (`origin`), whether
`os.path.exists` holds for it, and its parsed `<package>`/`<class>`
structure in document order. -/
structure CoverageReport where
  origin : String
  onDisk : Bool
  packages : List (List JClass)
deriving DecidableEq

/-- Line-coverage percentage of a matched class. -/
def classLineCoverage (missed covered : Nat) : ℚ :=
  if 0 < missed + covered then (covered : ℚ) / ((missed : ℚ) + (covered : ℚ)) * 100 else 0

/-- `get_coverage_for_file`: scans packages then classes in order and
returns the percentage of the first class matching the source file that
carries a LINE counter; `-1` if none does. -/
def get_coverage_for_file (packages : List (List JClass)) (fqc basename : String) : ℚ :=
  match packages.flatten.find?
      (fun c => c.sourcefilename == basename && c.name == fqc && c.lineCounter.isSome) with
  | some c =>
    match c.lineCounter with
    | some (missed, covered) => classLineCoverage missed covered
    | none => 0
  | none => -1

/-- The `for coverage_report_path in self.get_jacoco_report_paths()` loop
body of `check_coverage`: `extractRes` is the (input-determined, hence
loop-invariant) outcome of `_extract_fully_qualified_class(filename)`. -/
def coverageLoop (extractRes : Except HandlerErr String) (basename : String) :
    List CoverageReport → Except HandlerErr (List (String × ℚ))
  | [] => .ok []
  | r :: rs =>
    if ¬ r.onDisk then .error .noCoverageReportFound
    else
      match extractRes with
      | .error e => .error e
      | .ok fqc =>
        let cov := get_coverage_for_file r.packages fqc basename
        match coverageLoop extractRes basename rs with
        | .error e => .error e
        | .ok rest => .ok (if cov ≠ -1 then (r.origin, cov) :: rest else rest)

/-- `BuildHandler.check_coverage`, with the located reports (the sequence
produced by `get_jacoco_report_paths`, which itself raises
`NoCoverageReportFound` when it found none) passed in.  The result is the
fully forced lazy sequence: `.ok pairs` lists the yielded
`(report path, percentage)` pairs in order. -/
def check_coverage (reports : List CoverageReport) (extractRes : Except HandlerErr String)
    (basename : String) : Except HandlerErr (List (String × ℚ)) :=
  if reports.isEmpty then .error .noCoverageReportFound
  else
    match coverageLoop extractRes basename reports with
    | .error e => .error e
    | .ok pairs => if pairs.isEmpty then .error .fileNotCovered else .ok pairs

/-! ### Output sanitizer (`src/handlers.py:512-566`) -/

/-- `re.match(r"\[INFO\] Download(ing|ed) from", line)`. -/
def isDownloadLine (l : List Char) : Bool :=
  "[INFO] Downloading from".toList.isPrefixOf l || "[INFO] Downloaded from".toList.isPrefixOf l

def crabDownloadMarker : List Char := "[CRAB] Downloading stuff".toList

/-- `re.match(r"\[WARNING\] Files with unapproved licenses:", line)`. -/
def isLicenseHeaderLine (l : List Char) : Bool :=
  "[WARNING] Files with unapproved licenses:".toList.isPrefixOf l

/-- `re.match(r"\s+\?\/\.m2\/repository", line)`: at least one whitespace
character, then the literal `?/.m2/repository`.  (The greedy `\s+` cannot
backtrack here because `?` is not whitespace, so the maximal whitespace run
must be followed directly by the literal.) -/
def isLicenseItemLine (l : List Char) : Bool :=
  ¬ (l.takeWhile isSpaceChar).isEmpty &&
    "?/.m2/repository".toList.isPrefixOf (l.dropWhile isSpaceChar)

def crabLicenseMarker : List Char := "[CRAB] List of all the unapproved licenses...".toList

/-- The loop of `merge_download_lines`; the flag is `downloading_block`. -/
def mergeDownloadGo (inBlock : Bool) : List (List Char) → List (List Char)
  | [] => []
  | l :: ls =>
    if isDownloadLine l then
      if inBlock then mergeDownloadGo true ls
      else crabDownloadMarker :: mergeDownloadGo true ls
    else l :: mergeDownloadGo false ls

def merge_download_lines (lines : List (List Char)) : List (List Char) :=
  mergeDownloadGo false lines

/-- The loop of `merge_unapproved_licences`; the flag is `licenses_block`. -/
def mergeLicenceGo (inBlock : Bool) : List (List Char) → List (List Char)
  | [] => []
  | l :: ls =>
    if isLicenseHeaderLine l then l :: crabLicenseMarker :: mergeLicenceGo true ls
    else
      let inBlock' := if inBlock && ¬ isLicenseItemLine l then false else inBlock
      if inBlock' then mergeLicenceGo inBlock' ls else l :: mergeLicenceGo inBlock' ls

def merge_unapproved_licences (lines : List (List Char)) : List (List Char) :=
  mergeLicenceGo false lines

/-- `clean_output` on the decoded bytes: split on newlines, run both merge
passes, re-join with newlines. -/
def clean_output (output : List Char) : List Char :=
  joinWithChar '\n'
    (merge_unapproved_licences (merge_download_lines (splitOnChar '\n' output)))

/-! ### `MavenHandler.extract_test_numbers` (`src/handlers.py:254-276`)

The fixed regular expression
`\[INFO\] Results:\n\[INFO\]\s*\n\[INFO\] Tests run: (\d+), Failures: (\d+), Errors: (\d+), Skipped: (\d+)`
is embedded as a deterministic matcher.  The only regex backtracking point,
`\s*\n` followed by `[`, is forced: since `[` is not whitespace, the match
must consume the maximal whitespace run, whose last character must be the
`\n`.  Likewise each greedy `(\d+)` is followed by a non-digit literal, so
it consumes the maximal digit run. -/

def resultsLit : List Char := "[INFO] Results:\n[INFO]".toList

def testsRunLit : List Char := "[INFO] Tests run: ".toList

def failuresLit : List Char := ", Failures: ".toList

def errorsLit : List Char := ", Errors: ".toList

def skippedLit : List Char := ", Skipped: ".toList

/-- Match a literal, returning the rest of the input. -/
def matchLit : List Char → List Char → Option (List Char)
  | [], cs => some cs
  | _ :: _, [] => none
  | l :: ls, c :: cs => if c = l then matchLit ls cs else none

/-- `int` on a captured `\d+` group. -/
def digitsToNat (ds : List Char) : Nat :=
  ds.foldl (fun a c => a * 10 + (c.toNat - 48)) 0

/-- Match `(\d+)` (greedy, at least one digit). -/
def matchNum (cs : List Char) : Option (Nat × List Char) :=
  let ds := cs.takeWhile Char.isDigit
  if ds.isEmpty then none else some (digitsToNat ds, cs.dropWhile Char.isDigit)

/-- Match `\s*\n` when followed by a non-whitespace character: consume the
maximal whitespace run, which must be non-empty and end in `\n`. -/
def matchWsNewline (cs : List Char) : Option (List Char) :=
  let ws := cs.takeWhile isSpaceChar
  if ¬ ws.isEmpty ∧ ws.getLast? = some '\n' then some (cs.dropWhile isSpaceChar) else none

/-- One attempted match of the whole summary pattern at the head of the
input; on success returns the four captured numbers and the input following
the match. -/
def matchSummary (cs : List Char) : Option ((Nat × Nat × Nat × Nat) × List Char) :=
  (matchLit resultsLit cs).bind fun cs =>
  (matchWsNewline cs).bind fun cs =>
  (matchLit testsRunLit cs).bind fun cs =>
  (matchNum cs).bind fun rc =>
  (matchLit failuresLit rc.2).bind fun cs =>
  (matchNum cs).bind fun fc =>
  (matchLit errorsLit fc.2).bind fun cs =>
  (matchNum cs).bind fun ec =>
  (matchLit skippedLit ec.2).bind fun cs =>
  (matchNum cs).bind fun sc =>
  some ((rc.1, fc.1, ec.1, sc.1), sc.2)

/-- The `re.findall` scan: try to match at each position, left to right,
non-overlapping.  `fuel` bounds the recursion; it is instantiated with the
input length, which suffices since every step consumes at least one
character. -/
def findAllAux : Nat → List Char → List (Nat × Nat × Nat × Nat)
  | 0, _ => []
  | _ + 1, [] => []
  | fuel + 1, c :: cs =>
    match matchSummary (c :: cs) with
    | some (groups, rest) => groups :: findAllAux fuel rest
    | none => findAllAux fuel cs

/-- `re.findall(pattern, output)`. -/
def mavenFindAll (output : List Char) : List (Nat × Nat × Nat × Nat) :=
  findAllAux output.length output

/-- The accumulation loop over the matches: each `updates` counter starts
at 0 and is incremented per module block; passed is
`tests_run - (failures + errors)`. -/
def mavenAccum (u : TestNumUpdates) (m : Nat × Nat × Nat × Nat) : TestNumUpdates :=
  { n_tests := u.n_tests + m.1
    n_tests_failed := u.n_tests_failed + m.2.1
    n_tests_errors := u.n_tests_errors + m.2.2.1
    n_tests_skipped := u.n_tests_skipped + m.2.2.2
    n_tests_passed := u.n_tests_passed + ((m.1 : Int) - ((m.2.1 : Int) + (m.2.2.1 : Int))) }

def maven_extract_test_numbers (output : List Char) : TestNumUpdates × Option HandlerErr :=
  let ms := mavenFindAll output
  if ms.isEmpty then (⟨0, 0, 0, 0, 0⟩, some .noTestResultsToExtract)
  else (ms.foldl mavenAccum ⟨0, 0, 0, 0, 0⟩, none)

/-! ### Well-formed module summary blocks, for the additivity properties -/

/-- A module summary block, carrying the literal digit strings displayed in
`Tests run: _, Failures: _, Errors: _, Skipped: _`. -/
structure SummaryBlock where
  run : List Char
  failures : List Char
  errors : List Char
  skipped : List Char
deriving DecidableEq

/-- A displayed count: a non-empty string of decimal digits. -/
def goodDigits (ds : List Char) : Bool :=
  !ds.isEmpty && ds.all Char.isDigit

def wellFormedBlock (b : SummaryBlock) : Bool :=
  goodDigits b.run && goodDigits b.failures && goodDigits b.errors && goodDigits b.skipped

/-- The canonical rendering of one summary block, as Maven prints it. -/
def renderBlock (b : SummaryBlock) : List Char :=
  resultsLit ++ '\n' :: (testsRunLit ++ b.run ++ failuresLit ++ b.failures ++
    errorsLit ++ b.errors ++ skippedLit ++ b.skipped)

/-- An output consisting of a sequence of module summary blocks, separated
by newlines. -/
def renderBlocks : List SummaryBlock → List Char
  | [] => []
  | [b] => renderBlock b
  | b :: b' :: bs => renderBlock b ++ '\n' :: renderBlocks (b' :: bs)

/-- The numbers a block displays. -/
def blockValues (b : SummaryBlock) : Nat × Nat × Nat × Nat :=
  (digitsToNat b.run, digitsToNat b.failures, digitsToNat b.errors, digitsToNat b.skipped)

/-! ### Concrete fixtures used by counterexamples and witnesses -/

/-- The spec scenario output: a Maven run whose summary block reads
`Tests run: 10, Failures: 1, Errors: 0, Skipped: 2`. -/
def mavenScenarioOutput : List Char :=
  ("[INFO] Results:\n[INFO] \n[INFO] Tests run: 10, Failures: 1, Errors: 0, Skipped: 2").toList

/-- A repository root with no root-level build file whose single
subdirectory contains a `pom.xml`. -/
def nestedPomEntries : List DirEntry :=
  [.mk "submodule" false [.mk "pom.xml" true []]]

/-- Whether a report mentions the file, i.e. yields a coverage value other
than the `-1` sentinel of `get_coverage_for_file`. -/
def reportMentions (fqc basename : String) (r : CoverageReport) : Bool :=
  get_coverage_for_file r.packages fqc basename != -1

/-- A single located coverage report that mentions class `p/A` of source
file `A.java` with an empty LINE counter. -/
def w7reports : List CoverageReport :=
  [⟨"module/target/site/jacoco/jacoco.xml", true, [[⟨"p/A", "A.java", some (0, 0)⟩]]⟩]

/-! ## Theorems -/

/-- C5: when the compile step exceeds the 1-hour wall-clock budget,
`compile_repo` records a non-fatal timeout outcome — `compiled_successfully`
set to `false` with the timeout message — and returns without raising,
instead of propagating the generic `FailedToCompile` error. -/
theorem C5_compile_timeout_nonfatal (duration : Nat) (exitCode : Int) (output : List Char)
    (h : 3600 < duration) :
    compile_repo_timed duration exitCode output =
      (⟨some false, some compileTimeoutMsg⟩, none) := by
  simp [compile_repo_timed, runWithAlarm, h, compile_repo]

theorem C5_compile_timeout_nonfatal_witness :
    3600 < 3601 ∧ compile_repo_timed 3601 1 [] = (⟨some false, some compileTimeoutMsg⟩, none) :=
  ⟨by decide, C5_compile_timeout_nonfatal 3601 1 [] (by decide)⟩

/-- C6: for the Gradle handler, a missing
`build/reports/tests/test/index.html` makes `extract_test_numbers` raise
`NoTestResultsToExtract` (all counters left at the `-1` sentinels, not a
zero-count result); in every outcome `n_tests_errors` and `n_tests_skipped`
stay at `-1`; and on success `n_tests_passed = n_tests - n_tests_failed`. -/
theorem C6_gradle_extract_sentinels (indexHtmlExists : Bool) (doc : TestIndexHtml) :
    (gradle_extract_test_numbers indexHtmlExists doc).1.n_tests_errors = -1 ∧
    (gradle_extract_test_numbers indexHtmlExists doc).1.n_tests_skipped = -1 ∧
    (indexHtmlExists = false →
      gradle_extract_test_numbers indexHtmlExists doc =
        (⟨-1, -1, -1, -1, -1⟩, some .noTestResultsToExtract)) ∧
    ((gradle_extract_test_numbers indexHtmlExists doc).2 = none →
      (gradle_extract_test_numbers indexHtmlExists doc).1.n_tests_passed =
        (gradle_extract_test_numbers indexHtmlExists doc).1.n_tests -
          (gradle_extract_test_numbers indexHtmlExists doc).1.n_tests_failed) := by
  cases indexHtmlExists <;>
    rcases doc with ⟨_ | _ | t, _ | _ | f⟩ <;>
    simp [gradle_extract_test_numbers]

theorem C6_gradle_extract_sentinels_witness :
    gradle_extract_test_numbers false ⟨some (some 5), some (some 2)⟩ =
      (⟨-1, -1, -1, -1, -1⟩, some .noTestResultsToExtract) ∧
    (gradle_extract_test_numbers true ⟨some (some 5), some (some 2)⟩).1.n_tests_passed =
      (gradle_extract_test_numbers true ⟨some (some 5), some (some 2)⟩).1.n_tests -
        (gradle_extract_test_numbers true ⟨some (some 5), some (some 2)⟩).1.n_tests_failed :=
  ⟨(C6_gradle_extract_sentinels false ⟨some (some 5), some (some 2)⟩).2.2.1 rfl,
   (C6_gradle_extract_sentinels true ⟨some (some 5), some (some 2)⟩).2.2.2 (by decide)⟩

/-- C2: a build file with no test-library token and no test keyword, in a
repository where the conventional directory `src/test/java` exists, makes
`check_for_tests` RAISE `NoTestsFound` — even though the loop over
`test_dirs` has just recorded `"src/test/java dir exists in repo"` as the
detected source of tests, the function falls through to the raise (the
`return` the claim and the recorded update imply is missing). -/
theorem C2_testdir_detected_but_still_raises :
    check_for_tests "" (fun d => d == "src/test/java") =
      ⟨some "src/test/java dir exists in repo", some .noTestsFound⟩ := by
  decide

/-- C10: the undocumented preconditions of the coverage check, surfaced by
`_extract_fully_qualified_class` as distinct typed errors: a filename not
ending in `.java` raises `NotJavaFileError`; a `.java` filename absent from
the checkout raises `FileNotFoundInRepoError`; a parseable Java file with
no package declaration raises `NoPackageFoundError` — none of them
`FileNotCovered`. -/
theorem C10_fqc_preconditions (filepath : String) (fileInRepo : Bool)
    (parseResult : Except Unit JavaParseTree) (tree : JavaParseTree) :
    (hasSuffixStr ".java".toList filepath.toList = false →
      extract_fully_qualified_class filepath fileInRepo parseResult = .error .notJavaFile) ∧
    (hasSuffixStr ".java".toList filepath.toList = true → fileInRepo = false →
      extract_fully_qualified_class filepath fileInRepo parseResult =
        .error .fileNotFoundInRepo) ∧
    (hasSuffixStr ".java".toList filepath.toList = true → fileInRepo = true →
      parseResult = .ok tree → tree.firstPackageName = none →
      extract_fully_qualified_class filepath fileInRepo parseResult =
        .error .noPackageFound) := by
  refine ⟨fun h1 => ?_, fun h1 h2 => ?_, fun h1 h2 h3 h4 => ?_⟩
  · unfold extract_fully_qualified_class
    rw [h1]
    simp
  · unfold extract_fully_qualified_class
    rw [h1, h2]
    simp
  · subst h3
    unfold extract_fully_qualified_class
    rw [h1, h2]
    simp [h4]

theorem C10_fqc_preconditions_witness :
    extract_fully_qualified_class "notes.txt" true (.ok ⟨some "com.x"⟩) = .error .notJavaFile ∧
    extract_fully_qualified_class "A.java" false (.ok ⟨some "com.x"⟩) =
      .error .fileNotFoundInRepo ∧
    extract_fully_qualified_class "A.java" true (.ok ⟨none⟩) = .error .noPackageFound :=
  ⟨(C10_fqc_preconditions "notes.txt" true (.ok ⟨some "com.x"⟩) ⟨none⟩).1 (by decide),
   (C10_fqc_preconditions "A.java" false (.ok ⟨some "com.x"⟩) ⟨none⟩).2.1 (by decide) rfl,
   (C10_fqc_preconditions "A.java" true (.ok ⟨none⟩) ⟨none⟩).2.2 (by decide) rfl rfl rfl⟩

/-- C1: `generate_coverage_report` is transactional — whenever it re-raises
an error (`exec` is the exit code of the coverage command as a function of
the manifest state, `inject` any injector), the manifest file ends up with
exactly its pre-injection content; and the Maven injector is a no-op
whenever the `jacoco-maven-plugin` signature is already present. -/
theorem C1_injection_transactional (exec : Option String → Int)
    (inject : String → Except HandlerErr String) (manifest : Option String) :
    (∀ e, (generate_coverage_report exec inject manifest).1 = some e →
      (generate_coverage_report exec inject manifest).2 = manifest) ∧
    (∀ content, containsSub jacocoPluginSig.toList content.toList = true →
      maven_try_to_inject_jacoco content = .ok content) := by
  constructor
  · intro e he
    unfold generate_coverage_report at he ⊢
    by_cases h0 : exec manifest = 0
    · simp [h0] at he
    · cases manifest with
      | none => simp [h0] at he ⊢
      | some og =>
        cases hinj : inject og with
        | error e' => simp [h0, hinj] at he ⊢
        | ok injected =>
          unfold generate_coverage_report_injected at he ⊢
          by_cases h1 : exec (some injected) = 0
          · simp [h0, hinj, h1] at he
          · simp [h0, hinj, h1, isInjectionErr] at he ⊢
  · intro content hc
    unfold maven_try_to_inject_jacoco
    rw [hc]
    simp

theorem C1_injection_transactional_witness :
    (generate_coverage_report (fun _ => 1) maven_try_to_inject_jacoco (some "broken")).1 =
      some .cantInjectJacoco ∧
    (generate_coverage_report (fun _ => 1) maven_try_to_inject_jacoco (some "broken")).2 =
      some "broken" ∧
    maven_try_to_inject_jacoco "<artifactId>jacoco-maven-plugin</artifactId>" =
      .ok "<artifactId>jacoco-maven-plugin</artifactId>" :=
  ⟨by decide,
   (C1_injection_transactional (fun _ => 1) maven_try_to_inject_jacoco (some "broken")).1
     .cantInjectJacoco (by decide),
   (C1_injection_transactional (fun _ => 1) maven_try_to_inject_jacoco (some "broken")).2
     "<artifactId>jacoco-maven-plugin</artifactId>" (by decide)⟩

/-- C3 counterexample: a repository whose only root entry is a directory
holding a `pom.xml` one level down.  The claimed depth-1 fallback pass does
not exist (it is commented out in the source): `get_build_handler` raises
`CantFindBuildFile` even though a manifest is present at depth 1. -/
theorem C3_no_fallback_counterexample :
    (∃ e ∈ nestedPomEntries, e.isFile = false ∧
      ∃ s ∈ e.subEntries, s.isFile = true ∧ s.name = "pom.xml") ∧
    get_build_handler true nestedPomEntries = .error .cantFindBuildFile := by
  constructor
  · exact ⟨.mk "submodule" false [.mk "pom.xml" true []], List.Mem.head _, rfl,
      .mk "pom.xml" true [], List.Mem.head _, rfl, rfl⟩
  · rfl

/-- Characterization of the root-scan predicate of `get_build_handler`. -/
theorem buildFilePred_iff (e : DirEntry) :
    (e.isFile && toKeep.contains e.name) = true ↔
      e.isFile = true ∧ (e.name = "pom.xml" ∨ e.name = "build.gradle") := by
  simp [toKeep, List.contains]

/-- `get_build_handler` on a valid directory reduces to the root-level
scan. -/
theorem get_build_handler_true_eq (entries : List DirEntry) :
    get_build_handler true entries =
      match entries.find? (fun e => e.isFile && toKeep.contains e.name) with
      | some e =>
        if e.name = "build.gradle" then .ok (.gradle, e.name) else .ok (.maven, e.name)
      | none => .error .cantFindBuildFile := rfl

/-- C3 (amended): the detector scans only root-level entries — a Maven
handler when `pom.xml` is a root-level file entry (and `build.gradle` is
not), a Gradle handler when `build.gradle` is (and `pom.xml` is not), and
`CantFindBuildFile` exactly when neither manifest is a root-level file
entry, with no fallback pass over subdirectories. -/
theorem C3_root_only_detection (entries : List DirEntry) :
    ((∃ e ∈ entries, e.isFile = true ∧ e.name = "pom.xml") →
      (∀ e ∈ entries, e.isFile = true → e.name ≠ "build.gradle") →
      get_build_handler true entries = .ok (.maven, "pom.xml")) ∧
    ((∃ e ∈ entries, e.isFile = true ∧ e.name = "build.gradle") →
      (∀ e ∈ entries, e.isFile = true → e.name ≠ "pom.xml") →
      get_build_handler true entries = .ok (.gradle, "build.gradle")) ∧
    (get_build_handler true entries = .error .cantFindBuildFile ↔
      ∀ e ∈ entries, ¬ (e.isFile = true ∧ (e.name = "pom.xml" ∨ e.name = "build.gradle"))) := by
  cases hf : entries.find? (fun e => e.isFile && toKeep.contains e.name) with
  | none =>
    have hall := List.find?_eq_none.mp hf
    have hres : get_build_handler true entries = .error .cantFindBuildFile := by
      rw [get_build_handler_true_eq, hf]
    refine ⟨fun hex _ => ?_, fun hex _ => ?_, ?_⟩
    · obtain ⟨e, hmem, hfile, hname⟩ := hex
      exact absurd ((buildFilePred_iff e).mpr ⟨hfile, Or.inl hname⟩) (hall e hmem)
    · obtain ⟨e, hmem, hfile, hname⟩ := hex
      exact absurd ((buildFilePred_iff e).mpr ⟨hfile, Or.inr hname⟩) (hall e hmem)
    · rw [hres]
      simp only [eq_self_iff_true, true_iff]
      intro e hmem hpe
      exact absurd ((buildFilePred_iff e).mpr hpe) (hall e hmem)
  | some e =>
    have hpe := List.find?_some hf
    have hmem := List.mem_of_find?_eq_some hf
    obtain ⟨hfile, hname⟩ := (buildFilePred_iff e).mp hpe
    refine ⟨fun _ hno => ?_, fun _ hno => ?_, ?_⟩
    · have hn : e.name = "pom.xml" := by
        rcases hname with h | h
        · exact h
        · exact absurd h (hno e hmem hfile)
      rw [get_build_handler_true_eq, hf]
      simp [hn]
    · have hn : e.name = "build.gradle" := by
        rcases hname with h | h
        · exact absurd h (hno e hmem hfile)
        · exact h
      rw [get_build_handler_true_eq, hf]
      simp [hn]
    · constructor
      · intro hres
        rw [get_build_handler_true_eq, hf] at hres
        by_cases hg : e.name = "build.gradle" <;> simp [hg] at hres
      · intro hall
        exact absurd ⟨hfile, hname⟩ (hall e hmem)

theorem C3_root_only_detection_witness :
    (∃ e ∈ nestedPomEntries ++ [.mk "pom.xml" true []],
        e.isFile = true ∧ e.name = "pom.xml") ∧
    get_build_handler true (nestedPomEntries ++ [.mk "pom.xml" true []]) =
      .ok (.maven, "pom.xml") := by
  have hex : ∃ e ∈ nestedPomEntries ++ [DirEntry.mk "pom.xml" true []],
      e.isFile = true ∧ e.name = "pom.xml" :=
    ⟨.mk "pom.xml" true [], List.Mem.tail _ (List.Mem.head _), rfl, rfl⟩
  refine ⟨hex, (C3_root_only_detection _).1 hex ?_⟩
  intro e he hfile
  rcases he with _ | ⟨_, h2⟩
  · simp [DirEntry.isFile] at hfile
  · rcases h2 with _ | ⟨_, h3⟩
    · simp [DirEntry.name]
    · cases h3

/-- Splitting never yields an empty list of lines. -/
theorem splitOnChar_ne_nil (sep : Char) (cs : List Char) : splitOnChar sep cs ≠ [] := by
  cases cs with
  | nil => simp [splitOnChar]
  | cons c cs =>
    unfold splitOnChar
    by_cases h : c = sep
    · simp [h]
    · simp only [h, if_false, ite_false]
      cases hs : splitOnChar sep cs <;> simp

/-- Joining with the separator undoes splitting on it. -/
theorem joinWithChar_splitOnChar (sep : Char) (cs : List Char) :
    joinWithChar sep (splitOnChar sep cs) = cs := by
  induction cs with
  | nil => rfl
  | cons c cs ih =>
    rcases hs : splitOnChar sep cs with _ | ⟨l, ls⟩
    · exact absurd hs (splitOnChar_ne_nil sep cs)
    · rw [hs] at ih
      unfold splitOnChar
      by_cases h : c = sep
      · subst h
        simp only [if_pos rfl, hs]
        cases ls <;> simp [joinWithChar] at ih ⊢ <;> simp [ih]
      · simp only [if_neg h, hs]
        cases ls <;> simp [joinWithChar] at ih ⊢ <;> simp [ih]

/-- The download pass is the identity when no line matches the download
pattern. -/
theorem mergeDownloadGo_id (b : Bool) (lines : List (List Char))
    (h : ∀ l ∈ lines, isDownloadLine l = false) :
    mergeDownloadGo b lines = lines := by
  induction lines generalizing b with
  | nil => rfl
  | cons l ls ih =>
    have hl := h l (List.Mem.head _)
    unfold mergeDownloadGo
    simp only [hl, Bool.false_eq_true, if_false, ite_false, List.cons.injEq, true_and]
    exact ih false (fun x hx => h x (List.Mem.tail _ hx))

/-- The licence pass (started outside a block) is the identity when no line
matches the warning pattern. -/
theorem mergeLicenceGo_id (lines : List (List Char))
    (h : ∀ l ∈ lines, isLicenseHeaderLine l = false) :
    mergeLicenceGo false lines = lines := by
  induction lines with
  | nil => rfl
  | cons l ls ih =>
    have hl := h l (List.Mem.head _)
    unfold mergeLicenceGo
    simp only [hl, Bool.false_eq_true, if_false, ite_false, Bool.false_and, List.cons.injEq,
      true_and]
    exact ih (fun x hx => h x (List.Mem.tail _ hx))

/-- Non-download lines survive the download pass, in order. -/
theorem filter_sublist_mergeDownloadGo (b : Bool) (lines : List (List Char)) :
    (lines.filter (fun l => !isDownloadLine l)).Sublist (mergeDownloadGo b lines) := by
  induction lines generalizing b with
  | nil => simp [mergeDownloadGo]
  | cons l ls ih =>
    unfold mergeDownloadGo
    by_cases hl : isDownloadLine l = true
    · rw [List.filter_cons_of_neg (by simp [hl])]
      cases b with
      | true => simpa [hl] using ih true
      | false =>
        simp only [hl, if_true, ite_true, Bool.false_eq_true, if_false, ite_false]
        exact (ih true).cons _
    · rw [List.filter_cons_of_pos (by simp [hl])]
      simp only [hl, Bool.false_eq_true, if_false, ite_false]
      exact (ih false).cons₂ _

/-- A line matching the licence-block continuation pattern starts with a
whitespace character. -/
theorem licenseItem_head_space (l : List Char) (h : isLicenseItemLine l = true) :
    ∃ c cs, l = c :: cs ∧ isSpaceChar c = true := by
  unfold isLicenseItemLine at h
  cases l with
  | nil => simp [List.takeWhile] at h
  | cons c cs =>
    refine ⟨c, cs, rfl, ?_⟩
    by_cases hc : isSpaceChar c = true
    · exact hc
    · simp [List.takeWhile, hc] at h

/-- A line matching the licence warning pattern starts with `[`. -/
theorem licenseHeader_head (l : List Char) (h : isLicenseHeaderLine l = true) :
    ∃ cs, l = '[' :: cs := by
  cases l with
  | nil => exact absurd h (by decide)
  | cons c cs =>
    refine ⟨cs, ?_⟩
    unfold isLicenseHeaderLine at h
    have h' : ('[' == c && ("WARNING] Files with unapproved licenses:".toList.isPrefixOf cs))
        = true := h
    simp only [Bool.and_eq_true, beq_iff_eq] at h'
    rw [← h'.1]

/-- The warning line itself is never a continuation line. -/
theorem licenseHeader_not_item (l : List Char) (h : isLicenseHeaderLine l = true) :
    isLicenseItemLine l = false := by
  by_contra hi
  obtain ⟨c, cs, rfl, hspace⟩ := licenseItem_head_space l (by simpa using hi)
  obtain ⟨cs', heq⟩ := licenseHeader_head _ h
  injection heq with h1 _
  rw [h1] at hspace
  exact absurd hspace (by decide)

/-- Lines not matching the continuation pattern survive the licence pass,
in order. -/
theorem filter_sublist_mergeLicenceGo (b : Bool) (lines : List (List Char)) :
    (lines.filter (fun l => !isLicenseItemLine l)).Sublist (mergeLicenceGo b lines) := by
  induction lines generalizing b with
  | nil => simp [mergeLicenceGo]
  | cons l ls ih =>
    unfold mergeLicenceGo
    by_cases hh : isLicenseHeaderLine l = true
    · have hitem := licenseHeader_not_item l hh
      rw [List.filter_cons_of_pos (by simp [hitem])]
      simp only [hh, if_true, ite_true]
      exact ((ih true).cons _).cons₂ _
    · by_cases hi : isLicenseItemLine l = true
      · rw [List.filter_cons_of_neg (by simp [hi])]
        cases b with
        | true =>
          simp only [hh, Bool.false_eq_true, if_false, ite_false, hi, Bool.not_true,
            Bool.true_and, Bool.and_false, if_true, ite_true]
          exact ih true
        | false =>
          simp only [hh, Bool.false_eq_true, if_false, ite_false, hi, Bool.false_and,
            Bool.not_true, Bool.and_false]
          exact (ih false).cons _
      · rw [List.filter_cons_of_pos (by simp [hi])]
        cases b with
        | true =>
          simp only [hh, Bool.false_eq_true, if_false, ite_false, hi, Bool.not_false,
            Bool.true_and, Bool.and_true, if_true, ite_true]
          exact (ih false).cons₂ _
        | false =>
          simp only [hh, Bool.false_eq_true, if_false, ite_false, hi, Bool.false_and,
            Bool.not_false, Bool.and_true]
          exact (ih false).cons₂ _

/-- C8: the output sanitizer passes any input with no download line and no
unapproved-licence warning line through byte-identical, and on every input
the lines matching neither collapse pattern appear in the sanitized line
sequence verbatim and in their original order. -/
theorem C8_sanitizer_passthrough (output : List Char) :
    ((∀ l ∈ splitOnChar '\n' output,
        isDownloadLine l = false ∧ isLicenseHeaderLine l = false) →
      clean_output output = output) ∧
    ((splitOnChar '\n' output).filter
        (fun l => !isLicenseItemLine l && !isDownloadLine l)).Sublist
      (merge_unapproved_licences (merge_download_lines (splitOnChar '\n' output))) := by
  constructor
  · intro h
    unfold clean_output merge_unapproved_licences merge_download_lines
    rw [mergeDownloadGo_id false _ (fun l hl => (h l hl).1),
      mergeLicenceGo_id _ (fun l hl => (h l hl).2),
      joinWithChar_splitOnChar]
  · unfold merge_unapproved_licences merge_download_lines
    have h2 := (filter_sublist_mergeDownloadGo false
      (splitOnChar '\n' output)).filter (fun l => !isLicenseItemLine l)
    have hcomb := h2.trans
      (filter_sublist_mergeLicenceGo false (mergeDownloadGo false (splitOnChar '\n' output)))
    rwa [List.filter_filter] at hcomb

theorem C8_sanitizer_passthrough_witness :
    clean_output ("[INFO] BUILD SUCCESS\n[INFO] Total time: 2 s").toList =
      ("[INFO] BUILD SUCCESS\n[INFO] Total time: 2 s").toList :=
  (C8_sanitizer_passthrough _).1 (by decide)

/-- C4 counterexample: the spec scenario output, whose summary block reads
`Tests run: 10, Failures: 1, Errors: 0, Skipped: 2`.  The extractor
computes passed as `run - (failures + errors) = 9`, not the claimed 7. -/
theorem C4_scenario_counterexample :
    mavenFindAll mavenScenarioOutput = [(10, 1, 0, 2)] ∧
    (maven_extract_test_numbers mavenScenarioOutput).1.n_tests_passed = 9 ∧
    ¬ (maven_extract_test_numbers mavenScenarioOutput).1.n_tests_passed = 7 := by
  decide

/-- C4 (amended): an output whose only module summary block is
`Tests run: 10, Failures: 1, Errors: 0, Skipped: 2` yields
`run = 10, passed = 9, failed = 1, errored = 0, skipped = 2`
(passed computed as run minus the sum of failures and errors, summed over
module blocks), and an output with zero matches of the summary pattern
raises `NoTestResultsToExtract` instead of reporting zero counts. -/
theorem C4_maven_extract_scenario (output : List Char) :
    (mavenFindAll output = [(10, 1, 0, 2)] →
      maven_extract_test_numbers output = (⟨10, 9, 1, 0, 2⟩, none)) ∧
    (mavenFindAll output = [] →
      maven_extract_test_numbers output = (⟨0, 0, 0, 0, 0⟩, some .noTestResultsToExtract)) := by
  constructor
  · intro h
    unfold maven_extract_test_numbers
    rw [h]
    rfl
  · intro h
    unfold maven_extract_test_numbers
    rw [h]
    rfl

theorem C4_maven_extract_scenario_witness :
    maven_extract_test_numbers mavenScenarioOutput = (⟨10, 9, 1, 0, 2⟩, none) ∧
    maven_extract_test_numbers ("[ERROR] BUILD FAILURE").toList =
      (⟨0, 0, 0, 0, 0⟩, some .noTestResultsToExtract) :=
  ⟨(C4_maven_extract_scenario mavenScenarioOutput).1 (by decide),
   (C4_maven_extract_scenario _).2 (by decide)⟩

/-- `matchLit` consumes exactly its literal. -/
theorem matchLit_append (lit rest : List Char) : matchLit lit (lit ++ rest) = some rest := by
  induction lit with
  | nil => rfl
  | cons c cs ih => simp [matchLit, ih]

/-- A run of characters satisfying `p`, followed by input whose head does
not satisfy `p`, is exactly what `takeWhile`/`dropWhile` split off. -/
theorem takeWhile_dropWhile_append (p : Char → Bool) (ds rest : List Char)
    (hds : ∀ c ∈ ds, p c = true) (hrest : ∀ x, rest.head? = some x → p x = false) :
    (ds ++ rest).takeWhile p = ds ∧ (ds ++ rest).dropWhile p = rest := by
  induction ds with
  | nil =>
    simp only [List.nil_append]
    cases rest with
    | nil => simp
    | cons r rs =>
      have hr := hrest r rfl
      simp [List.takeWhile_cons, List.dropWhile_cons, hr]
  | cons d ds ih =>
    have hd := hds d (List.Mem.head _)
    obtain ⟨h1, h2⟩ := ih (fun c hc => hds c (List.Mem.tail _ hc))
    simp [List.takeWhile_cons, List.dropWhile_cons, hd, h1, h2]

/-- `goodDigits` unpacked. -/
theorem goodDigits_spec (ds : List Char) (h : goodDigits ds = true) :
    ds ≠ [] ∧ ∀ c ∈ ds, c.isDigit = true := by
  unfold goodDigits at h
  simp only [Bool.and_eq_true, Bool.not_eq_true', List.isEmpty_eq_false,
    List.all_eq_true] at h
  exact ⟨h.1, h.2⟩

/-- `matchNum` consumes exactly a maximal digit run. -/
theorem matchNum_append (ds rest : List Char) (hne : ds ≠ [])
    (hds : ∀ c ∈ ds, c.isDigit = true)
    (hrest : ∀ x, rest.head? = some x → x.isDigit = false) :
    matchNum (ds ++ rest) = some (digitsToNat ds, rest) := by
  obtain ⟨h1, h2⟩ := takeWhile_dropWhile_append Char.isDigit ds rest hds hrest
  unfold matchNum
  rw [h1, h2]
  simp [hne]

/-- `matchWsNewline` on a single newline followed by non-whitespace. -/
theorem matchWsNewline_newline (rest : List Char)
    (hrest : ∀ x, rest.head? = some x → isSpaceChar x = false) :
    matchWsNewline ('\n' :: rest) = some rest := by
  obtain ⟨h1, h2⟩ :=
    takeWhile_dropWhile_append isSpaceChar ['\n'] rest (by decide) hrest
  unfold matchWsNewline
  rw [show ('\n' :: rest) = ['\n'] ++ rest from rfl, h1, h2]
  simp

theorem resultsLit_eq : resultsLit = '[' :: "INFO] Results:\n[INFO]".toList := by decide

theorem testsRunLit_eq : testsRunLit = '[' :: "INFO] Tests run: ".toList := by decide

theorem failuresLit_eq : failuresLit = ',' :: " Failures: ".toList := by decide

theorem errorsLit_eq : errorsLit = ',' :: " Errors: ".toList := by decide

theorem skippedLit_eq : skippedLit = ',' :: " Skipped: ".toList := by decide

/-- A position not starting with `[` cannot start a summary match. -/
theorem matchSummary_none_of_head (c : Char) (cs : List Char) (hc : ¬ c = '[') :
    matchSummary (c :: cs) = none := by
  unfold matchSummary
  rw [resultsLit_eq]
  simp [matchLit, hc]

/-- The matcher recognises exactly one rendered block at the head of the
input, provided the input continues with a non-digit (or ends). -/
theorem matchSummary_renderBlock (b : SummaryBlock) (hb : wellFormedBlock b = true)
    (tail : List Char) (ht : ∀ x, tail.head? = some x → x.isDigit = false) :
    matchSummary (renderBlock b ++ tail) = some (blockValues b, tail) := by
  have hb' : goodDigits b.run = true ∧ goodDigits b.failures = true ∧
      goodDigits b.errors = true ∧ goodDigits b.skipped = true := by
    unfold wellFormedBlock at hb
    simp only [Bool.and_eq_true] at hb
    tauto
  obtain ⟨hrne, hrd⟩ := goodDigits_spec _ hb'.1
  obtain ⟨hfne, hfd⟩ := goodDigits_spec _ hb'.2.1
  obtain ⟨hene, hed⟩ := goodDigits_spec _ hb'.2.2.1
  obtain ⟨hsne, hsd⟩ := goodDigits_spec _ hb'.2.2.2
  unfold matchSummary renderBlock
  simp only [List.append_assoc, List.cons_append, List.nil_append]
  rw [matchLit_append]
  simp only [Option.some_bind]
  rw [matchWsNewline_newline _ (by
    rw [testsRunLit_eq]
    intro x hx
    simp only [List.cons_append, List.head?_cons, Option.some.injEq] at hx
    subst hx
    decide)]
  simp only [Option.some_bind]
  rw [matchLit_append]
  simp only [Option.some_bind]
  rw [matchNum_append b.run _ hrne hrd (by
    rw [failuresLit_eq]
    intro x hx
    simp only [List.cons_append, List.head?_cons, Option.some.injEq] at hx
    subst hx
    decide)]
  simp only [Option.some_bind]
  rw [matchLit_append]
  simp only [Option.some_bind]
  rw [matchNum_append b.failures _ hfne hfd (by
    rw [errorsLit_eq]
    intro x hx
    simp only [List.cons_append, List.head?_cons, Option.some.injEq] at hx
    subst hx
    decide)]
  simp only [Option.some_bind]
  rw [matchLit_append]
  simp only [Option.some_bind]
  rw [matchNum_append b.errors _ hene hed (by
    rw [skippedLit_eq]
    intro x hx
    simp only [List.cons_append, List.head?_cons, Option.some.injEq] at hx
    subst hx
    decide)]
  simp only [Option.some_bind]
  rw [matchLit_append]
  simp only [Option.some_bind]
  rw [matchNum_append b.skipped _ hsne hsd ht]
  simp [blockValues]

/-- A rendered block is never empty. -/
theorem renderBlock_length (b : SummaryBlock) : 2 ≤ (renderBlock b).length := by
  have h22 : resultsLit.length = 22 := by decide
  unfold renderBlock
  simp only [List.length_append, List.length_cons]
  omega

/-- One scan step: a successful match at the head emits its groups and
continues after the matched text. -/
theorem findAllAux_cons_some (fuel : Nat) (c : Char) (cs rest : List Char)
    (g : Nat × Nat × Nat × Nat) (h : matchSummary (c :: cs) = some (g, rest)) :
    findAllAux (fuel + 1) (c :: cs) = g :: findAllAux fuel rest := by
  have hstep : findAllAux (fuel + 1) (c :: cs) =
      match matchSummary (c :: cs) with
      | some (groups, rest) => groups :: findAllAux fuel rest
      | none => findAllAux fuel cs := rfl
  rw [hstep, h]

/-- One scan step: no match at the head skips one character. -/
theorem findAllAux_cons_none (fuel : Nat) (c : Char) (cs : List Char)
    (h : matchSummary (c :: cs) = none) :
    findAllAux (fuel + 1) (c :: cs) = findAllAux fuel cs := by
  have hstep : findAllAux (fuel + 1) (c :: cs) =
      match matchSummary (c :: cs) with
      | some (groups, rest) => groups :: findAllAux fuel rest
      | none => findAllAux fuel cs := rfl
  rw [hstep, h]

/-- The scan over a newline-separated sequence of well-formed rendered
blocks finds exactly their displayed numbers, in order. -/
theorem findAllAux_renderBlocks (bs : List SummaryBlock)
    (hwf : ∀ b ∈ bs, wellFormedBlock b = true) :
    ∀ fuel, (renderBlocks bs).length ≤ fuel →
      findAllAux fuel (renderBlocks bs) = bs.map blockValues := by
  induction bs with
  | nil =>
    intro fuel _
    cases fuel <;> rfl
  | cons b bs ih =>
    intro fuel hfuel
    have hb := hwf b (List.Mem.head _)
    have hlen := renderBlock_length b
    cases bs with
    | nil =>
      have hmatch : matchSummary (renderBlock b) = some (blockValues b, []) := by
        have := matchSummary_renderBlock b hb [] (by intro x hx; simp at hx)
        rwa [List.append_nil] at this
      have hrbs : renderBlocks [b] = renderBlock b := rfl
      rw [hrbs] at hfuel ⊢
      rcases hrb : renderBlock b with _ | ⟨c, cs⟩
      · rw [hrb] at hlen
        simp at hlen
      · rw [hrb] at hmatch hfuel
        obtain ⟨f, rfl⟩ : ∃ f, fuel = f + 1 := by
          refine ⟨fuel - 1, ?_⟩
          simp only [List.length_cons] at hfuel
          omega
        rw [findAllAux_cons_some f c cs [] (blockValues b) hmatch]
        cases f <;> rfl
    | cons b' bs' =>
      have hrbs : renderBlocks (b :: b' :: bs') =
          renderBlock b ++ '\n' :: renderBlocks (b' :: bs') := rfl
      have hmatch := matchSummary_renderBlock b hb ('\n' :: renderBlocks (b' :: bs'))
        (by intro x hx; simp only [List.head?_cons, Option.some.injEq] at hx; subst hx; decide)
      rw [hrbs] at hfuel ⊢
      have hflen : (renderBlock b).length + ((renderBlocks (b' :: bs')).length + 1) ≤ fuel := by
        simpa [List.length_append] using hfuel
      rcases hrb : renderBlock b with _ | ⟨c, cs⟩
      · rw [hrb] at hlen
        simp at hlen
      · rw [hrb] at hmatch hflen
        rw [List.cons_append] at hmatch
        rw [List.cons_append]
        obtain ⟨f, rfl⟩ : ∃ f, fuel = f + 1 := by
          refine ⟨fuel - 1, ?_⟩
          simp only [List.length_cons] at hflen
          omega
        rw [findAllAux_cons_some f c (cs ++ '\n' :: renderBlocks (b' :: bs'))
          ('\n' :: renderBlocks (b' :: bs')) (blockValues b) hmatch]
        obtain ⟨f', rfl⟩ : ∃ f', f = f' + 1 := by
          refine ⟨f - 1, ?_⟩
          simp only [List.length_cons] at hflen
          omega
        rw [findAllAux_cons_none f' '\n' (renderBlocks (b' :: bs'))
          (matchSummary_none_of_head '\n' _ (by decide))]
        rw [ih (fun x hx => hwf x (List.Mem.tail _ hx)) f' (by
          simp only [List.length_cons] at hflen
          omega)]
        rfl

/-- `re.findall` over a rendered sequence of well-formed blocks. -/
theorem mavenFindAll_renderBlocks (bs : List SummaryBlock)
    (hwf : ∀ b ∈ bs, wellFormedBlock b = true) :
    mavenFindAll (renderBlocks bs) = bs.map blockValues :=
  findAllAux_renderBlocks bs hwf _ le_rfl

/-- The accumulation loop computes componentwise sums over the match
list. -/
theorem foldl_mavenAccum_eq (ms : List (Nat × Nat × Nat × Nat)) (u : TestNumUpdates) :
    ms.foldl mavenAccum u =
      ⟨u.n_tests + (ms.map (fun m => (m.1 : Int))).sum,
       u.n_tests_passed +
         (ms.map (fun m => (m.1 : Int) - ((m.2.1 : Int) + (m.2.2.1 : Int)))).sum,
       u.n_tests_failed + (ms.map (fun m => (m.2.1 : Int))).sum,
       u.n_tests_errors + (ms.map (fun m => (m.2.2.1 : Int))).sum,
       u.n_tests_skipped + (ms.map (fun m => (m.2.2.2 : Int))).sum⟩ := by
  induction ms generalizing u with
  | nil =>
    cases u
    simp
  | cons m ms ih =>
    simp only [List.foldl_cons, List.map_cons, List.sum_cons, ih]
    unfold mavenAccum
    simp only [TestNumUpdates.mk.injEq]
    refine ⟨by ring, by ring, by ring, by ring, by ring⟩

/-- The Maven extractor on a rendered sequence of well-formed blocks
succeeds with the componentwise sums of the blocks. -/
theorem maven_extract_renderBlocks (bs : List SummaryBlock)
    (hwf : ∀ b ∈ bs, wellFormedBlock b = true) (hne : bs ≠ []) :
    maven_extract_test_numbers (renderBlocks bs) =
      (⟨(bs.map (fun b => ((blockValues b).1 : Int))).sum,
        (bs.map (fun b => ((blockValues b).1 : Int) -
          (((blockValues b).2.1 : Int) + ((blockValues b).2.2.1 : Int)))).sum,
        (bs.map (fun b => ((blockValues b).2.1 : Int))).sum,
        (bs.map (fun b => ((blockValues b).2.2.1 : Int))).sum,
        (bs.map (fun b => ((blockValues b).2.2.2 : Int))).sum⟩, none) := by
  have hlistne : (bs.map blockValues).isEmpty = false := by
    cases bs with
    | nil => exact absurd rfl hne
    | cons x xs => rfl
  simp only [maven_extract_test_numbers]
  rw [mavenFindAll_renderBlocks bs hwf, hlistne]
  simp only [Bool.false_eq_true, if_false, ite_false]
  rw [foldl_mavenAccum_eq]
  simp only [List.map_map, zero_add, Prod.mk.injEq, TestNumUpdates.mk.injEq]
  exact ⟨⟨rfl, rfl, rfl, rfl, rfl⟩, trivial⟩

/-- C9: Maven test-summary extraction is additive and order-invariant —
on an output consisting of well-formed module summary blocks, the totals
are the componentwise sums over the blocks, and any permutation of the
blocks yields identical totals. -/
theorem C9_maven_summary_additive (bs bs' : List SummaryBlock)
    (hwf : ∀ b ∈ bs, wellFormedBlock b = true) (hne : bs ≠ []) (hperm : bs.Perm bs') :
    maven_extract_test_numbers (renderBlocks bs) =
      (⟨(bs.map (fun b => ((blockValues b).1 : Int))).sum,
        (bs.map (fun b => ((blockValues b).1 : Int) -
          (((blockValues b).2.1 : Int) + ((blockValues b).2.2.1 : Int)))).sum,
        (bs.map (fun b => ((blockValues b).2.1 : Int))).sum,
        (bs.map (fun b => ((blockValues b).2.2.1 : Int))).sum,
        (bs.map (fun b => ((blockValues b).2.2.2 : Int))).sum⟩, none) ∧
    maven_extract_test_numbers (renderBlocks bs') =
      maven_extract_test_numbers (renderBlocks bs) := by
  have hwf' : ∀ b ∈ bs', wellFormedBlock b = true := fun b hb => hwf b (hperm.mem_iff.mpr hb)
  have hne' : bs' ≠ [] := by
    intro h
    subst h
    exact hne hperm.eq_nil
  refine ⟨maven_extract_renderBlocks bs hwf hne, ?_⟩
  rw [maven_extract_renderBlocks bs hwf hne, maven_extract_renderBlocks bs' hwf' hne']
  have h1 := (hperm.map (fun b => ((blockValues b).1 : Int))).sum_eq
  have h2 := (hperm.map (fun b => ((blockValues b).1 : Int) -
    (((blockValues b).2.1 : Int) + ((blockValues b).2.2.1 : Int)))).sum_eq
  have h3 := (hperm.map (fun b => ((blockValues b).2.1 : Int))).sum_eq
  have h4 := (hperm.map (fun b => ((blockValues b).2.2.1 : Int))).sum_eq
  have h5 := (hperm.map (fun b => ((blockValues b).2.2.2 : Int))).sum_eq
  simp only [Prod.mk.injEq, TestNumUpdates.mk.injEq]
  exact ⟨⟨h1.symm, h2.symm, h3.symm, h4.symm, h5.symm⟩, trivial⟩

theorem C9_maven_summary_additive_witness :
    maven_extract_test_numbers (renderBlocks
      [⟨['5'], ['0'], ['0'], ['1']⟩, ⟨['1', '0'], ['1'], ['0'], ['2']⟩]) =
    maven_extract_test_numbers (renderBlocks
      [⟨['1', '0'], ['1'], ['0'], ['2']⟩, ⟨['5'], ['0'], ['0'], ['1']⟩]) :=
  (C9_maven_summary_additive
    [⟨['1', '0'], ['1'], ['0'], ['2']⟩, ⟨['5'], ['0'], ['0'], ['1']⟩]
    [⟨['5'], ['0'], ['0'], ['1']⟩, ⟨['1', '0'], ['1'], ['0'], ['2']⟩]
    (by decide) (by decide) (by decide)).2

/-- A line-coverage percentage is always within [0, 100]. -/
theorem classLineCoverage_bounds (missed covered : Nat) :
    0 ≤ classLineCoverage missed covered ∧ classLineCoverage missed covered ≤ 100 := by
  unfold classLineCoverage
  by_cases h : 0 < missed + covered
  · rw [if_pos h]
    have hpos : (0 : ℚ) < (missed : ℚ) + (covered : ℚ) := by exact_mod_cast h
    have hle : (covered : ℚ) / ((missed : ℚ) + (covered : ℚ)) ≤ 1 := by
      rw [div_le_one hpos]
      have : (covered : ℚ) ≤ (missed : ℚ) + (covered : ℚ) := by
        have := Nat.le_add_left covered missed
        exact_mod_cast this
      exact this
    constructor
    · positivity
    · calc (covered : ℚ) / ((missed : ℚ) + (covered : ℚ)) * 100
          ≤ 1 * 100 := by nlinarith [hle]
        _ = 100 := by norm_num
  · rw [if_neg h]
    norm_num

/-- `get_coverage_for_file` written as a single lookup. -/
theorem get_coverage_eq (packages : List (List JClass)) (fqc basename : String) :
    get_coverage_for_file packages fqc basename =
      match packages.flatten.find?
          (fun c => c.sourcefilename == basename && c.name == fqc && c.lineCounter.isSome) with
      | some c =>
        match c.lineCounter with
        | some (missed, covered) => classLineCoverage missed covered
        | none => 0
      | none => -1 := rfl

/-- A non-sentinel coverage value is a genuine percentage in [0, 100]. -/
theorem get_coverage_bounds (packages : List (List JClass)) (fqc basename : String)
    (h : get_coverage_for_file packages fqc basename ≠ -1) :
    0 ≤ get_coverage_for_file packages fqc basename ∧
      get_coverage_for_file packages fqc basename ≤ 100 := by
  rw [get_coverage_eq] at h ⊢
  generalize packages.flatten.find?
    (fun c => c.sourcefilename == basename && c.name == fqc && c.lineCounter.isSome) = res
      at h ⊢
  cases res with
  | none => simp at h
  | some c =>
    obtain ⟨nm, sf, lc⟩ := c
    cases lc with
    | none =>
      refine ⟨le_refl 0, ?_⟩
      show (0 : ℚ) ≤ 100
      norm_num
    | some mc =>
      obtain ⟨m, cov⟩ := mc
      exact classLineCoverage_bounds m cov

/-- The report loop with a successfully resolved class and all report files
on disk yields one pair per mentioning report, in order. -/
theorem coverageLoop_ok (fqc basename : String) (rs : List CoverageReport)
    (hdisk : ∀ r ∈ rs, r.onDisk = true) :
    coverageLoop (.ok fqc) basename rs =
      .ok ((rs.filter (reportMentions fqc basename)).map
        (fun r => (r.origin, get_coverage_for_file r.packages fqc basename))) := by
  induction rs with
  | nil => rfl
  | cons r rs ih =>
    have hr := hdisk r (List.Mem.head _)
    unfold coverageLoop
    rw [ih (fun x hx => hdisk x (List.Mem.tail _ hx))]
    simp only [hr, not_true_eq_false, Bool.false_eq_true, if_false, ite_false, List.filter_cons]
    by_cases hm : get_coverage_for_file r.packages fqc basename = -1
    · have hment : reportMentions fqc basename r = false := by
        simp [reportMentions, hm]
      simp [hment, hm]
    · have hment : reportMentions fqc basename r = true := by
        simp [reportMentions, hm]
      simp [hment, hm]

/-- C7 counterexample: with zero located coverage reports the file
trivially appears in none of them, yet `check_coverage` surfaces the
generator's `NoCoverageReportFound`, not `FileNotCovered`. -/
theorem C7_zero_reports_counterexample :
    (∀ r ∈ ([] : List CoverageReport),
      get_coverage_for_file r.packages "p/A" "A.java" = -1) ∧
    check_coverage [] (.ok "p/A") "A.java" = .error .noCoverageReportFound ∧
    check_coverage [] (.ok "p/A") "A.java" ≠ .error .fileNotCovered := by
  refine ⟨by simp, rfl, by simp [check_coverage]⟩

/-- C7 (amended): given at least one located report, all of them on disk,
and a resolved fully-qualified class: if the file appears in none of the
located reports, `check_coverage` raises `FileNotCovered`; if it appears in
n ≥ 1 of them, the yielded sequence has exactly n (report origin, percent)
pairs, every percent within [0, 100].  (With zero located reports,
`NoCoverageReportFound` is raised instead.) -/
theorem C7_coverage_lookup (reports : List CoverageReport) (fqc basename : String)
    (hdisk : ∀ r ∈ reports, r.onDisk = true) (hne : reports ≠ []) :
    ((∀ r ∈ reports, get_coverage_for_file r.packages fqc basename = -1) →
      check_coverage reports (.ok fqc) basename = .error .fileNotCovered) ∧
    (0 < (reports.filter (reportMentions fqc basename)).length →
      ∃ pairs, check_coverage reports (.ok fqc) basename = .ok pairs ∧
        pairs.length = (reports.filter (reportMentions fqc basename)).length ∧
        ∀ p ∈ pairs, 0 ≤ p.2 ∧ p.2 ≤ 100) := by
  have hloop := coverageLoop_ok fqc basename reports hdisk
  have hnotempty : reports.isEmpty = false := by
    cases reports with
    | nil => exact absurd rfl hne
    | cons x xs => rfl
  constructor
  · intro hall
    have hfilter : reports.filter (reportMentions fqc basename) = [] := by
      rw [List.filter_eq_nil_iff]
      intro r hr
      simp [reportMentions, hall r hr]
    unfold check_coverage
    rw [hloop, hfilter]
    simp [hnotempty]
  · intro hpos
    refine ⟨(reports.filter (reportMentions fqc basename)).map
      (fun r => (r.origin, get_coverage_for_file r.packages fqc basename)), ?_, ?_, ?_⟩
    · unfold check_coverage
      rw [hloop]
      have hplist : ((reports.filter (reportMentions fqc basename)).map
          (fun r => (r.origin, get_coverage_for_file r.packages fqc basename))).isEmpty
            = false := by
        rcases hc : reports.filter (reportMentions fqc basename) with _ | ⟨x, xs⟩
        · rw [hc] at hpos
          simp at hpos
        · rfl
      simp [hnotempty, hplist]
    · simp
    · intro p hp
      simp only [List.mem_map] at hp
      obtain ⟨r, hrmem, rfl⟩ := hp
      have hment : reportMentions fqc basename r = true := List.of_mem_filter hrmem
      have hnot : get_coverage_for_file r.packages fqc basename ≠ -1 := by
        simpa [reportMentions] using hment
      exact get_coverage_bounds _ _ _ hnot

theorem C7_coverage_lookup_witness :
    (∀ r ∈ w7reports, r.onDisk = true) ∧
    0 < (w7reports.filter (reportMentions "p/A" "A.java")).length ∧
    ∃ pairs, check_coverage w7reports (.ok "p/A") "A.java" = .ok pairs ∧
      pairs.length = (w7reports.filter (reportMentions "p/A" "A.java")).length ∧
      ∀ p ∈ pairs, 0 ≤ p.2 ∧ p.2 ≤ 100 := by
  have hpos : 0 < (w7reports.filter (reportMentions "p/A" "A.java")).length := by
    decide
  exact ⟨by decide, hpos,
    (C7_coverage_lookup w7reports "p/A" "A.java" (by decide) (by decide)).2 hpos⟩

end Crab
